import Mathlib

/-!
Shallow embedding of `create_target_sheets.py`: the 14-bit circular coded
target renderer (`SvgPage.add_target`) and the four sheet composers
(`create_sheet_grid`, `create_sheet_a`, `create_sheet_b`, `create_sheet_c`).

Geometry is modelled over `ℚ`.  An arc segment is recorded by the data that
determines it in the source: the target centre, the ring radius
(`radius * 2.5`), the sector index `i` of the loop together with its start
and end angles in degrees (`360 / BITS * i` and `360 / BITS * (i + 1)`),
and whether the segment received the `id="first"` anchor tag.  The actual
`cos`/`sin` coordinate conversion is a bijective function of these data and
is not needed by any claim.

The external module `find_codes` is out of scope (spec section 1); its
result `CODES` is modelled as an explicit list parameter `codes : List ℕ`
of the composers.
-/

namespace Target14

/-- `BITS = 14` in the source. -/
def BITS : ℕ := 14

/-- Default `SvgPage` width (`width = 210`). -/
def page_width : ℚ := 210

/-- Default `SvgPage` height (`height = 298`). -/
def page_height : ℚ := 298

/-- One arc segment of the coded ring, as emitted by the loop body of
`SvgPage.add_target`: centre of the target, ring radius `radius * 2.5`,
start/end angle in degrees (`360 / BITS * i`, `360 / BITS * (i + 1)`),
the loop index `i` (the angular sector), and whether this path element
carries the `id="first"` attribute. -/
structure Arc where
  cx : ℚ
  cy : ℚ
  ringR : ℚ
  startDeg : ℚ
  endDeg : ℚ
  sector : ℕ
  isFirst : Bool
deriving DecidableEq, Repr

/-- A drawing primitive appended to the SVG string of `SvgPage`. -/
inductive Prim where
  | rect (x y w h : ℚ) (color : String)
  | circle (x y r : ℚ) (color : String)
  | arc (a : Arc)
  | text (x y size : ℚ) (label : ℕ) (color : String)
deriving DecidableEq, Repr

/-- The loop guard `(1 << (BITS - 1 - i)) & code` of `add_target`,
as a boolean (Python truthiness of a nonzero integer). -/
def bitSet (code i : ℕ) : Bool := (1 <<< (BITS - 1 - i)) &&& code != 0

/-- The arc segment emitted for loop index `i`. -/
def mkArc (x y radius : ℚ) (i : ℕ) (first : Bool) : Arc :=
  ⟨x, y, radius * 2.5, 360 / (BITS : ℚ) * (i : ℚ), 360 / (BITS : ℚ) * ((i : ℚ) + 1), i, first⟩

/-- The `for i in range(BITS)` loop of `add_target`, threading the mutable
`first_segment` flag: starting at loop index `i` with `fuel` iterations
left. -/
def arcsAux (x y radius : ℚ) (code : ℕ) : ℕ → ℕ → Bool → List Arc
  | _, 0, _ => []
  | i, fuel + 1, first_segment =>
    if bitSet code i then
      mkArc x y radius i first_segment :: arcsAux x y radius code (i + 1) fuel false
    else
      arcsAux x y radius code (i + 1) fuel first_segment

/-- `SvgPage.add_circle`. -/
def add_circle (x y radius : ℚ) (color : String) : Prim :=
  Prim.circle x y radius color

/-- `SvgPage.add_target`: a filled centre circle, one arc path per set bit
(threading the `first_segment` flag), and the text label `code_num + 1`
at offset `(-3·radius, +3·radius)` with font size `radius / 2`. -/
def add_target (x y radius : ℚ) (code code_num : ℕ) (first_segment : Bool)
    (color : String) : List Prim :=
  add_circle x y radius color ::
    ((arcsAux x y radius code 0 BITS first_segment).map Prim.arc ++
      [Prim.text (x - radius * 3) (y + radius * 3) (radius / 2) (code_num + 1) color])

/-- What a composer adds to the page: a coded target placement
(the argument tuple of an `add_target` call) or an uncoded reference dot
(an `add_circle` call). -/
inductive Elem where
  | target (x y radius : ℚ) (code num : ℕ) (first : Bool)
  | dot (x y radius : ℚ)
deriving DecidableEq, Repr

/-- Expanding one composer-level element into the primitives `SvgPage`
records for it (both calls use the default `color = "#000000"`). -/
def renderElem : Elem → List Prim
  | .target x y radius code num first => add_target x y radius code num first "#000000"
  | .dot x y radius => [add_circle x y radius "#000000"]

/-- The full primitive content of a page: the background rectangle added by
`SvgPage.__init__` followed by the rendered elements. -/
def renderPage (elems : List Elem) : List Prim :=
  Prim.rect 5 5 (page_width - 10) (page_height - 10) "#fff" :: elems.flatMap renderElem

/-- `create_sheet_grid` (margin 10): a `rows × cols` row-major grid; the
cell `(i, j)` is drawn only when `code_index + i*cols + j < len(CODES)`.
Every placement is invoked with `first_segment=True` (line 123 of the
source). -/
def create_sheet_grid (codes : List ℕ) (diameter : ℚ) (code_index rows cols : ℕ) :
    List Elem :=
  let margin : ℚ := 10
  let target_size := diameter * 3
  let x_spacing := (page_width - margin * 2 - target_size) / ((cols : ℚ) - 1)
  let y_spacing := (page_height - margin * 2 - target_size) / ((rows : ℚ) - 1)
  (List.range rows).flatMap fun i =>
    (List.range cols).filterMap fun j =>
      let num := code_index + i * cols + j
      if h : num < codes.length then
        some (Elem.target (margin + target_size / 2 + (j : ℚ) * x_spacing)
          (margin + target_size / 2 + (i : ℚ) * y_spacing)
          (diameter / 2) (codes.get ⟨num, h⟩) num true)
      else
        none

/-- `create_sheet_a` (default margin 5): two coded targets at the quarter
and three-quarter diagonal points and four reference dots.  The source
indexes `CODES[code_index]` and `CODES[code_index+1]` without a bounds
check; an out-of-range index raises `IndexError`, modelled as `none`. -/
def create_sheet_a (codes : List ℕ) (diameter : ℚ) (code_index : ℕ) :
    Option (List Elem) :=
  let margin : ℚ := 5
  let target_size := diameter * 3
  let x_spacing := page_width - margin * 2 - target_size
  let y_spacing := (page_height - margin * 2 - target_size) / 3
  match codes[code_index]?, codes[code_index + 1]? with
  | some c1, some c2 => some
      [Elem.target (page_width / 4) (page_height / 4) (diameter / 2) c1 code_index true,
       Elem.target (page_width / 4 * 3) (page_height / 4 * 3) (diameter / 2) c2
         (code_index + 1) false,
       Elem.dot (margin + target_size / 2 + 1 * x_spacing)
         (margin + target_size / 2 + 0 * y_spacing) (diameter / 2),
       Elem.dot (margin + target_size / 2 + 1 * x_spacing)
         (margin + target_size / 2 + 1 * y_spacing) (diameter / 2),
       Elem.dot (margin + target_size / 2 + 0 * x_spacing)
         (margin + target_size / 2 + 2 * y_spacing) (diameter / 2),
       Elem.dot (margin + target_size / 2 + 0 * x_spacing)
         (margin + target_size / 2 + 3 * y_spacing) (diameter / 2)]
  | _, _ => none

/-- `create_sheet_b` (default margin 5): one coded target whose slot
depends on the parity of `code_index`, two adjacent reference dots and
four corner reference dots.  Unguarded `CODES[code_index]` modelled as
`none` when out of range. -/
def create_sheet_b (codes : List ℕ) (diameter : ℚ) (code_index : ℕ) :
    Option (List Elem) :=
  let margin : ℚ := 5
  let target_size := diameter * 3
  let x_spacing := page_width - margin * 2 - target_size
  let y_spacing := (page_height - margin * 2 - target_size) / 3
  let col : ℚ := if code_index % 2 = 0 then 0 else 1
  let row : ℚ := if code_index % 2 = 0 then 0 else 2
  let coded_x : ℚ := if code_index % 2 = 0 then page_width / 4 * 3 else page_width / 4
  let coded_y : ℚ := if code_index % 2 = 0 then page_height / 4 * 3 else page_height / 4
  match codes[code_index]? with
  | some c => some
      [Elem.target coded_x coded_y (diameter / 2) c code_index true,
       Elem.dot (margin + target_size / 2 + col * x_spacing)
         (margin + target_size / 2 + row * y_spacing) (diameter / 2),
       Elem.dot (margin + target_size / 2 + col * x_spacing)
         (margin + target_size / 2 + (row + 1) * y_spacing) (diameter / 2),
       Elem.dot (margin + target_size / 2 + 1 * x_spacing)
         (margin + target_size / 2 + 0 * y_spacing) (diameter / 2),
       Elem.dot (margin + target_size / 2 + 1 * x_spacing)
         (margin + target_size / 2 + 1 * y_spacing) (diameter / 2),
       Elem.dot (margin + target_size / 2 + 0 * x_spacing)
         (margin + target_size / 2 + 2 * y_spacing) (diameter / 2),
       Elem.dot (margin + target_size / 2 + 0 * x_spacing)
         (margin + target_size / 2 + 3 * y_spacing) (diameter / 2)]
  | none => none

/-- `create_sheet_c` (default margin 5): one coded target at the page
centre and four reference dots.  Unguarded `CODES[code_index]` modelled as
`none` when out of range. -/
def create_sheet_c (codes : List ℕ) (diameter : ℚ) (code_index : ℕ) :
    Option (List Elem) :=
  let margin : ℚ := 5
  let target_size := diameter * 3
  let x_spacing := page_width - margin * 2 - target_size
  let y_spacing := (page_height - margin * 2 - target_size) / 2
  match codes[code_index]? with
  | some c => some
      [Elem.target (page_width / 2) (page_height / 2) (diameter / 2) c code_index true,
       Elem.dot (margin + target_size / 2 + 0 * x_spacing)
         (margin + target_size / 2 + 0 * y_spacing) (diameter / 2),
       Elem.dot (margin + target_size / 2 + 1 * x_spacing)
         (margin + target_size / 2 + 0 * y_spacing) (diameter / 2),
       Elem.dot (margin + target_size / 2 + 0 * x_spacing)
         (margin + target_size / 2 + 2 * y_spacing) (diameter / 2),
       Elem.dot (margin + target_size / 2 + 1 * x_spacing)
         (margin + target_size / 2 + 2 * y_spacing) (diameter / 2)]
  | none => none

/-! ### Observation functions -/

/-- The arc segments among a list of primitives. -/
def arcsOfPrims (l : List Prim) : List Arc :=
  l.filterMap fun p => match p with
    | .arc a => some a
    | _ => none

/-- Number of arc path elements carrying the `id="first"` anchor tag. -/
def pageAnchors (l : List Prim) : ℕ :=
  (arcsOfPrims l).countP (·.isFirst)

/-- The printed labels of the text primitives, in order. -/
def textLabels (l : List Prim) : List ℕ :=
  l.filterMap fun p => match p with
    | .text _ _ _ lab _ => some lab
    | _ => none

/-- Ordinal code indices of the coded placements of a page, in order. -/
def targetNums (l : List Elem) : List ℕ :=
  l.filterMap fun e => match e with
    | .target _ _ _ _ num _ => some num
    | _ => none

/-- The code values of the coded placements of a page, in order. -/
def targetCodes (l : List Elem) : List ℕ :=
  l.filterMap fun e => match e with
    | .target _ _ _ code _ _ => some code
    | _ => none

/-- The positions of the coded placements of a page, in order. -/
def targetPositions (l : List Elem) : List (ℚ × ℚ) :=
  l.filterMap fun e => match e with
    | .target x y _ _ _ _ => some (x, y)
    | _ => none

/-- Number of placements on a page invoked with `first_segment=true`. -/
def firstFlagCount (l : List Elem) : ℕ :=
  l.countP fun e => match e with
    | .target _ _ _ _ _ first => first
    | _ => false

/-- Number of uncoded reference dots on a page. -/
def dotCount (l : List Elem) : ℕ :=
  l.countP fun e => match e with
    | .dot _ _ _ => true
    | _ => false

/-- Centre x-coordinate of an element. -/
def elemX : Elem → ℚ
  | .target x _ _ _ _ _ => x
  | .dot x _ _ => x

/-- Centre y-coordinate of an element. -/
def elemY : Elem → ℚ
  | .target _ y _ _ _ _ => y
  | .dot _ y _ => y

/-- Binary population count, with fuel for structural recursion
(`fuel ≥ n` is enough since halving reaches `0` within `n` steps). -/
def popcountAux : ℕ → ℕ → ℕ
  | 0, _ => 0
  | fuel + 1, n => if n = 0 then 0 else n % 2 + popcountAux fuel (n / 2)

/-- Binary population count. -/
def popcount (n : ℕ) : ℕ := popcountAux n n

example : popcount 5 = 2 := by decide
example : popcount 16383 = 14 := by decide
example : bitSet 1 13 = true := by decide
example : bitSet 1 0 = false := by decide

/-! ### Arithmetic lemmas about `popcount` and `testBit` -/

theorem popcountAux_zero (fuel : ℕ) : popcountAux fuel 0 = 0 := by
  cases fuel <;> simp [popcountAux]

theorem popcountAux_congr :
    ∀ f₁ f₂ n : ℕ, n ≤ f₁ → n ≤ f₂ → popcountAux f₁ n = popcountAux f₂ n := by
  intro f₁
  induction f₁ with
  | zero =>
    intro f₂ n h₁ _
    interval_cases n
    simp [popcountAux, popcountAux_zero]
  | succ f ih =>
    intro f₂ n h₁ h₂
    match n, f₂ with
    | 0, _ => simp [popcountAux_zero]
    | k + 1, 0 => omega
    | k + 1, g + 1 =>
      simp only [popcountAux, Nat.succ_ne_zero, if_false]
      have hdiv : (k + 1) / 2 ≤ f := by omega
      have hdiv' : (k + 1) / 2 ≤ g := by omega
      rw [ih g ((k + 1) / 2) hdiv hdiv']

theorem popcount_div2 (n : ℕ) : popcount n = n % 2 + popcount (n / 2) := by
  match n with
  | 0 => simp [popcount, popcountAux_zero]
  | m + 1 =>
    unfold popcount
    conv_lhs => rw [show popcountAux (m + 1) (m + 1) =
      (m + 1) % 2 + popcountAux m ((m + 1) / 2) by simp [popcountAux]]
    congr 1
    exact popcountAux_congr m ((m + 1) / 2) ((m + 1) / 2) (by omega) (by omega)

theorem sum_pow_filter_testBit :
    ∀ k c : ℕ, c < 2 ^ k →
      (((List.range k).filter (fun i => c.testBit i)).map (fun i => 2 ^ i)).sum = c := by
  intro k
  induction k with
  | zero =>
    intro c hc
    interval_cases c
    simp
  | succ k ih =>
    intro c hc
    rw [List.range_succ_eq_map, List.filter_cons]
    have hsucc : (fun i => c.testBit i) ∘ Nat.succ = fun i => (c / 2).testBit i := by
      funext i
      simp [Function.comp, Nat.testBit_succ]
    rw [List.filter_map, hsucc]
    have h2 : 2 ^ (k + 1) = 2 * 2 ^ k := by ring
    have ihc : (((List.range k).filter (fun i => (c / 2).testBit i)).map
        (fun i => 2 ^ i)).sum = c / 2 :=
      ih (c / 2) (by omega)
    have hmap : ((((List.range k).filter (fun i => (c / 2).testBit i)).map Nat.succ).map
        (fun i => 2 ^ i)).sum = 2 * (c / 2) := by
      rw [List.map_map]
      have : (fun i => 2 ^ i) ∘ Nat.succ = fun i => 2 * 2 ^ i := by
        funext i
        simp [Function.comp, Nat.pow_succ, Nat.mul_comm]
      rw [this, List.sum_map_mul_left, ihc]
    by_cases h0 : c.testBit 0
    · simp only [h0, if_true, List.map_cons, List.sum_cons, hmap]
      rw [Nat.testBit_zero] at h0
      simp only [decide_eq_true_eq] at h0
      have := Nat.div_add_mod c 2
      omega
    · simp only [h0, if_false, Bool.false_eq_true, hmap]
      rw [Nat.testBit_zero] at h0
      have hm : c % 2 = 0 := by
        have hlt : c % 2 < 2 := Nat.mod_lt _ (by omega)
        simp only [decide_eq_true_eq] at h0
        omega
      have := Nat.div_add_mod c 2
      omega

theorem length_filter_testBit :
    ∀ k c : ℕ, c < 2 ^ k →
      ((List.range k).filter (fun i => c.testBit i)).length = popcount c := by
  intro k
  induction k with
  | zero =>
    intro c hc
    interval_cases c
    simp [popcount, popcountAux_zero]
  | succ k ih =>
    intro c hc
    rw [List.range_succ_eq_map, List.filter_cons]
    have hsucc : (fun i => c.testBit i) ∘ Nat.succ = fun i => (c / 2).testBit i := by
      funext i
      simp [Function.comp, Nat.testBit_succ]
    rw [List.filter_map, hsucc]
    have h2 : 2 ^ (k + 1) = 2 * 2 ^ k := by ring
    have ihc : ((List.range k).filter (fun i => (c / 2).testBit i)).length = popcount (c / 2) :=
      ih (c / 2) (by omega)
    rw [popcount_div2 c]
    by_cases h0 : c.testBit 0
    · rw [Nat.testBit_zero] at h0
      simp only [decide_eq_true_eq] at h0
      simp [h0, List.length_map, ihc]
      omega
    · rw [Nat.testBit_zero] at h0
      simp only [decide_eq_true_eq] at h0
      have hm : c % 2 = 0 := by
        have hlt : c % 2 < 2 := Nat.mod_lt _ (by omega)
        omega
      simp [hm, Nat.testBit_zero, List.length_map, ihc]

/-- Reversal of the sector index: summing `f (k-1-i)` over the indices `i`
where `p (k-1-i)` holds equals summing `f` over the indices where `p`
holds. -/
theorem sum_map_filter_rev (k : ℕ) (p : ℕ → Bool) (f : ℕ → ℕ) :
    (((List.range k).filter (fun i => p (k - 1 - i))).map (fun i => f (k - 1 - i))).sum =
      (((List.range k).filter p).map f).sum := by
  have hrev : (List.range k).reverse = (List.range k).map (fun i => k - 1 - i) := by
    have h := List.reverse_range' 0 k
    rw [← List.range_eq_range'] at h
    simpa using h
  have key : ((List.range k).filter (fun i => p (k - 1 - i))).map (fun i => k - 1 - i) =
      ((List.range k).filter p).reverse := by
    rw [← List.filter_reverse, hrev, List.filter_map]
    rfl
  calc (((List.range k).filter (fun i => p (k - 1 - i))).map (fun i => f (k - 1 - i))).sum
      = ((((List.range k).filter (fun i => p (k - 1 - i))).map
          (fun i => k - 1 - i)).map f).sum := by rw [List.map_map]; rfl
    _ = ((((List.range k).filter p).reverse).map f).sum := by rw [key]
    _ = (((List.range k).filter p).map f).sum := by
        rw [List.map_reverse, List.sum_reverse]

theorem length_filter_rev (k : ℕ) (p : ℕ → Bool) :
    ((List.range k).filter (fun i => p (k - 1 - i))).length =
      ((List.range k).filter p).length := by
  have hrev : (List.range k).reverse = (List.range k).map (fun i => k - 1 - i) := by
    have h := List.reverse_range' 0 k
    rw [← List.range_eq_range'] at h
    simpa using h
  have key : ((List.range k).filter (fun i => p (k - 1 - i))).map (fun i => k - 1 - i) =
      ((List.range k).filter p).reverse := by
    rw [← List.filter_reverse, hrev, List.filter_map]
    rfl
  calc ((List.range k).filter (fun i => p (k - 1 - i))).length
      = (((List.range k).filter (fun i => p (k - 1 - i))).map (fun i => k - 1 - i)).length := by
        rw [List.length_map]
    _ = ((List.range k).filter p).length := by rw [key, List.length_reverse]

/-- The loop guard is exactly the test of bit `BITS - 1 - i`. -/
theorem bitSet_eq_testBit (code i : ℕ) : bitSet code i = code.testBit (BITS - 1 - i) := by
  unfold bitSet
  rw [Nat.shiftLeft_eq, one_mul, Nat.two_pow_and]
  cases h : code.testBit (BITS - 1 - i) <;>
    simp [h, Nat.pos_iff_ne_zero.mp (Nat.two_pow_pos (BITS - 1 - i))]

/-! ### Characterisation of the arc loop -/

theorem arcsAux_map_sector (x y r : ℚ) (c : ℕ) :
    ∀ (fuel i : ℕ) (first : Bool),
      (arcsAux x y r c i fuel first).map Arc.sector = (List.range' i fuel).filter (bitSet c) := by
  intro fuel
  induction fuel with
  | zero => intro i first; simp [arcsAux]
  | succ fuel ih =>
    intro i first
    rw [List.range'_succ, List.filter_cons]
    by_cases h : bitSet c i
    · simp only [arcsAux, h, if_true, List.map_cons, ih (i + 1) false, mkArc]
    · simp only [arcsAux, h, if_false, Bool.false_eq_true, ih (i + 1) first]

theorem arcsAux_fields (x y r : ℚ) (c : ℕ) :
    ∀ (fuel i : ℕ) (first : Bool), ∀ a ∈ arcsAux x y r c i fuel first,
      a.cx = x ∧ a.cy = y ∧ a.ringR = r * 2.5 ∧
        a.startDeg = 360 / (BITS : ℚ) * (a.sector : ℚ) ∧
        a.endDeg = 360 / (BITS : ℚ) * ((a.sector : ℚ) + 1) := by
  intro fuel
  induction fuel with
  | zero => intro i first a ha; simp [arcsAux] at ha
  | succ fuel ih =>
    intro i first a ha
    by_cases h : bitSet c i
    · simp only [arcsAux, h, if_true, List.mem_cons] at ha
      rcases ha with rfl | ha
      · exact ⟨rfl, rfl, rfl, rfl, rfl⟩
      · exact ih (i + 1) false a ha
    · simp only [arcsAux, h, if_false, Bool.false_eq_true] at ha
      exact ih (i + 1) first a ha

theorem arcsAux_countP_false (x y r : ℚ) (c : ℕ) :
    ∀ (fuel i : ℕ), (arcsAux x y r c i fuel false).countP (·.isFirst) = 0 := by
  intro fuel
  induction fuel with
  | zero => intro i; simp [arcsAux]
  | succ fuel ih =>
    intro i
    by_cases h : bitSet c i
    · simp only [arcsAux, h, if_true, List.countP_cons]
      simp [mkArc, ih (i + 1)]
    · simp only [arcsAux, h, if_false, Bool.false_eq_true]
      exact ih (i + 1)

theorem arcsAux_countP_true (x y r : ℚ) (c : ℕ) :
    ∀ (fuel i : ℕ), (arcsAux x y r c i fuel true).countP (·.isFirst) =
      min 1 (arcsAux x y r c i fuel true).length := by
  intro fuel
  induction fuel with
  | zero => intro i; simp [arcsAux]
  | succ fuel ih =>
    intro i
    by_cases h : bitSet c i
    · simp only [arcsAux, h, if_true, List.countP_cons, List.length_cons]
      simp [mkArc, arcsAux_countP_false x y r c fuel (i + 1)]
    · simp only [arcsAux, h, if_false, Bool.false_eq_true]
      exact ih (i + 1)

/-- The arc paths of a rendered target are exactly the loop output. -/
theorem arcsOfPrims_add_target (x y r : ℚ) (c num : ℕ) (first : Bool) (color : String) :
    arcsOfPrims (add_target x y r c num first color) = arcsAux x y r c 0 BITS first := by
  unfold arcsOfPrims add_target add_circle
  rw [List.filterMap_cons_none rfl, List.filterMap_append, List.filterMap_map,
    List.filterMap_cons_none rfl, List.filterMap_nil, List.append_nil]
  exact List.filterMap_some _

theorem textLabels_map_arc (l : List Arc) : textLabels (l.map Prim.arc) = [] := by
  unfold textLabels
  rw [List.filterMap_map]
  simp

/-- A rendered target prints exactly the label `code_num + 1`. -/
theorem textLabels_add_target (x y r : ℚ) (c num : ℕ) (first : Bool) (color : String) :
    textLabels (add_target x y r c num first color) = [num + 1] := by
  unfold add_target add_circle
  unfold textLabels
  rw [List.filterMap_cons_none rfl, List.filterMap_append, List.filterMap_map]
  simp

/-- The sector indices drawn by `add_target` are exactly the `i < BITS`
with bit `BITS - 1 - i` of the code set. -/
theorem add_target_sectors (x y r : ℚ) (c num : ℕ) (first : Bool) (color : String) :
    (arcsOfPrims (add_target x y r c num first color)).map Arc.sector =
      (List.range BITS).filter (fun i => c.testBit (BITS - 1 - i)) := by
  rw [arcsOfPrims_add_target, arcsAux_map_sector, ← List.range_eq_range']
  congr 1
  funext i
  exact bitSet_eq_testBit c i

/-- Claim C1: for every 14-bit code, `add_target` emits exactly
`popcount code` arc path elements; the segment for loop index `i` exists
iff bit `BITS - 1 - i` of the code is set (so the most significant bit
occupies sector 0), and every emitted segment spans the angular sector
`[360·i/14, 360·(i+1)/14)` degrees at ring radius `2.5 · radius`. -/
theorem claim_C1_popcount_sectors (x y radius : ℚ) (code code_num : ℕ)
    (first : Bool) (color : String) (h : code < 2 ^ BITS) :
    (arcsOfPrims (add_target x y radius code code_num first color)).length = popcount code ∧
    (∀ i < BITS, (code.testBit (BITS - 1 - i) = true ↔
      ∃ a ∈ arcsOfPrims (add_target x y radius code code_num first color), a.sector = i)) ∧
    (∀ a ∈ arcsOfPrims (add_target x y radius code code_num first color),
      a.sector < BITS ∧ a.ringR = 2.5 * radius ∧
      a.startDeg = 360 * (a.sector : ℚ) / (BITS : ℚ) ∧
      a.endDeg = 360 * ((a.sector : ℚ) + 1) / (BITS : ℚ) ∧ a.cx = x ∧ a.cy = y) := by
  have hsec := add_target_sectors x y radius code code_num first color
  refine ⟨?_, ?_, ?_⟩
  · have hlen : (arcsOfPrims (add_target x y radius code code_num first color)).length =
        ((arcsOfPrims (add_target x y radius code code_num first color)).map
          Arc.sector).length := by
      rw [List.length_map]
    rw [hlen, hsec, length_filter_rev BITS (fun j => code.testBit j),
      length_filter_testBit BITS code h]
  · intro i hi
    constructor
    · intro hbit
      have hmem : i ∈ (arcsOfPrims (add_target x y radius code code_num first color)).map
          Arc.sector := by
        rw [hsec]
        simp only [List.mem_filter, List.mem_range]
        exact ⟨hi, hbit⟩
      rcases List.mem_map.mp hmem with ⟨a, ha, hai⟩
      exact ⟨a, ha, hai⟩
    · rintro ⟨a, ha, rfl⟩
      have hmem : a.sector ∈ (arcsOfPrims (add_target x y radius code code_num first
          color)).map Arc.sector := List.mem_map_of_mem _ ha
      rw [hsec] at hmem
      exact (List.mem_filter.mp hmem).2
  · intro a ha
    have hmem : a.sector ∈ (arcsOfPrims (add_target x y radius code code_num first
        color)).map Arc.sector := List.mem_map_of_mem _ ha
    rw [hsec] at hmem
    have hlt : a.sector < BITS := List.mem_range.mp (List.mem_filter.mp hmem).1
    rw [arcsOfPrims_add_target] at ha
    obtain ⟨hcx, hcy, hring, hstart, hend⟩ := arcsAux_fields x y radius code BITS 0 first a ha
    refine ⟨hlt, ?_, ?_, ?_, hcx, hcy⟩
    · rw [hring]; ring
    · rw [hstart]; ring
    · rw [hend]; ring

theorem claim_C1_witness :
    (5 : ℕ) < 2 ^ BITS ∧
    (arcsOfPrims (add_target 0 0 1 5 0 true "#000000")).length = popcount 5 ∧
    popcount 5 = 2 :=
  ⟨by decide, (claim_C1_popcount_sectors 0 0 1 5 0 true "#000000" (by decide)).1, by decide⟩

/-- Claim C2: decoding the emitted sectors — summing `2 ^ (BITS - 1 - i)`
over every sector `i` that received an arc segment — reproduces the code. -/
theorem claim_C2_roundtrip (x y radius : ℚ) (code code_num : ℕ)
    (first : Bool) (color : String) (h : code < 2 ^ BITS) :
    ((arcsOfPrims (add_target x y radius code code_num first color)).map
      (fun a => 2 ^ (BITS - 1 - a.sector))).sum = code := by
  have h1 : (arcsOfPrims (add_target x y radius code code_num first color)).map
      (fun a => 2 ^ (BITS - 1 - a.sector)) =
      ((arcsOfPrims (add_target x y radius code code_num first color)).map
        Arc.sector).map (fun s => 2 ^ (BITS - 1 - s)) := by
    rw [List.map_map]
    rfl
  rw [h1, add_target_sectors]
  have h2 := sum_map_filter_rev BITS (fun j => code.testBit j) (fun j => 2 ^ j)
  beta_reduce at h2
  rw [h2]
  exact sum_pow_filter_testBit BITS code h

theorem claim_C2_witness :
    (5 : ℕ) < 2 ^ BITS ∧
    ((arcsOfPrims (add_target 0 0 1 5 0 true "#000000")).map
      (fun a => 2 ^ (BITS - 1 - a.sector))).sum = 5 :=
  ⟨by decide, claim_C2_roundtrip 0 0 1 5 0 true "#000000" (by decide)⟩

/-! ### Anchor-tag accounting -/

theorem bitSet_zero (i : ℕ) : bitSet 0 i = false := by
  rw [bitSet_eq_testBit]
  exact Nat.zero_testBit _

theorem arcsAux_code_zero (x y r : ℚ) :
    ∀ (fuel i : ℕ) (first : Bool), arcsAux x y r 0 i fuel first = [] := by
  intro fuel
  induction fuel with
  | zero => intro i first; rfl
  | succ fuel ih =>
    intro i first
    simp only [arcsAux, bitSet_zero, Bool.false_eq_true, if_false]
    exact ih (i + 1) first

/-- With code 0 a target renders as just its centre dot and its label. -/
theorem add_target_code_zero (x y radius : ℚ) (num : ℕ) (first : Bool) (color : String) :
    add_target x y radius 0 num first color =
      [add_circle x y radius color,
       Prim.text (x - radius * 3) (y + radius * 3) (radius / 2) (num + 1) color] := by
  unfold add_target
  rw [arcsAux_code_zero]
  rfl

theorem arcsAux_full_sectors (x y r : ℚ) (c : ℕ) (first : Bool) :
    (arcsAux x y r c 0 BITS first).map Arc.sector =
      (List.range BITS).filter (fun i => c.testBit (BITS - 1 - i)) := by
  rw [arcsAux_map_sector, ← List.range_eq_range']
  congr 1
  funext i
  exact bitSet_eq_testBit c i

theorem arcsOfPrims_append (l₁ l₂ : List Prim) :
    arcsOfPrims (l₁ ++ l₂) = arcsOfPrims l₁ ++ arcsOfPrims l₂ :=
  List.filterMap_append l₁ l₂ _

theorem pageAnchors_append (l₁ l₂ : List Prim) :
    pageAnchors (l₁ ++ l₂) = pageAnchors l₁ + pageAnchors l₂ := by
  unfold pageAnchors
  rw [arcsOfPrims_append, List.countP_append]

/-- Anchor tags contributed by one composer-level element. -/
def anchorsOfElem (e : Elem) : ℕ := pageAnchors (renderElem e)

theorem pageAnchors_flatMap (elems : List Elem) :
    pageAnchors (elems.flatMap renderElem) = (elems.map anchorsOfElem).sum := by
  induction elems with
  | nil => rfl
  | cons e es ih =>
    rw [List.flatMap_cons, pageAnchors_append, List.map_cons, List.sum_cons, ih]
    rfl

theorem pageAnchors_renderPage (elems : List Elem) :
    pageAnchors (renderPage elems) = (elems.map anchorsOfElem).sum := by
  unfold renderPage
  have hrect : pageAnchors (Prim.rect 5 5 (page_width - 10) (page_height - 10) "#fff" ::
      elems.flatMap renderElem) = pageAnchors (elems.flatMap renderElem) := by
    unfold pageAnchors arcsOfPrims
    rw [List.filterMap_cons_none rfl]
  rw [hrect, pageAnchors_flatMap]

theorem anchorsOfElem_dot (x y r : ℚ) : anchorsOfElem (.dot x y r) = 0 := rfl

theorem anchorsOfElem_target (x y r : ℚ) (c num : ℕ) (first : Bool) :
    anchorsOfElem (.target x y r c num first) =
      (arcsAux x y r c 0 BITS first).countP (·.isFirst) := by
  unfold anchorsOfElem renderElem pageAnchors
  rw [arcsOfPrims_add_target]

theorem anchorsOfElem_target_false (x y r : ℚ) (c num : ℕ) :
    anchorsOfElem (.target x y r c num false) = 0 := by
  rw [anchorsOfElem_target, arcsAux_countP_false]

/-- A placement with `first_segment=true` and a 14-bit code contributes one
anchor tag iff its code is nonzero. -/
theorem anchorsOfElem_target_true (x y r : ℚ) (c num : ℕ) (h : c < 2 ^ BITS) :
    anchorsOfElem (.target x y r c num true) = if c = 0 then 0 else 1 := by
  rw [anchorsOfElem_target, arcsAux_countP_true]
  by_cases hc : c = 0
  · subst hc
    rw [arcsAux_code_zero]
    simp
  · have hlen : (arcsAux x y r c 0 BITS true).length =
        ((List.range BITS).filter (fun i => c.testBit (BITS - 1 - i))).length := by
      rw [← arcsAux_full_sectors x y r c true, List.length_map]
    obtain ⟨j, hj⟩ := Nat.ne_zero_implies_bit_true hc
    have hjlt : j < BITS := by
      by_contra hge
      have h2 : (2 : ℕ) ^ BITS ≤ 2 ^ j := Nat.pow_le_pow_right (by omega) (by omega)
      rw [Nat.testBit_eq_false_of_lt (by omega)] at hj
      exact Bool.false_ne_true hj
    have hmem : BITS - 1 - j ∈ (List.range BITS).filter
        (fun i => c.testBit (BITS - 1 - i)) := by
      rw [List.mem_filter, List.mem_range]
      constructor
      · omega
      · have : BITS - 1 - (BITS - 1 - j) = j := by omega
        rw [this, hj]
    have hpos : 0 < (arcsAux x y r c 0 BITS true).length := by
      rw [hlen]
      exact List.length_pos.mpr (List.ne_nil_of_mem hmem)
    simp only [hc, if_false]
    omega

/-- Claim C10: with code 0, `add_target` emits the centre dot and the
label but no arc path and no anchor tag even when `first_segment=true`;
a `create_sheet_c` page whose single (and only `first_segment=true`)
placement has code 0 contains no anchor element at all. -/
theorem claim_C10_code_zero (x y radius : ℚ) (num : ℕ) (color : String) (d : ℚ) :
    add_target x y radius 0 num true color =
      [add_circle x y radius color,
       Prim.text (x - radius * 3) (y + radius * 3) (radius / 2) (num + 1) color] ∧
    arcsOfPrims (add_target x y radius 0 num true color) = [] ∧
    pageAnchors (add_target x y radius 0 num true color) = 0 ∧
    ∃ l, create_sheet_c [0] d 0 = some l ∧ pageAnchors (renderPage l) = 0 := by
  refine ⟨add_target_code_zero x y radius num true color, ?_, ?_, ?_⟩
  · rw [arcsOfPrims_add_target, arcsAux_code_zero]
  · unfold pageAnchors
    rw [arcsOfPrims_add_target, arcsAux_code_zero]
    rfl
  · refine ⟨_, rfl, ?_⟩
    rw [pageAnchors_renderPage]
    simp only [List.map_cons, List.map_nil, List.sum_cons, List.sum_nil, anchorsOfElem_dot,
      List.getElem_cons_zero]
    rw [anchorsOfElem_target_true _ _ _ _ _ (by decide)]
    simp

/-! ### Characterisation of the grid composer -/

theorem flatMap_range_filterMap {α : Type} (cols : ℕ) (F : ℕ → Option α) :
    ∀ rows : ℕ,
      ((List.range rows).flatMap fun i => (List.range cols).filterMap fun j =>
        F (i * cols + j)) = (List.range (rows * cols)).filterMap F := by
  intro rows
  induction rows with
  | zero => simp
  | succ r ih =>
    rw [List.range_succ, List.flatMap_append, ih, List.flatMap_singleton,
      Nat.succ_mul, List.range_add, List.filterMap_append, List.filterMap_map]
    rfl

theorem targetNums_flatMap {α : Type} (l : List α) (g : α → List Elem) :
    targetNums (l.flatMap g) = l.flatMap fun a => targetNums (g a) :=
  List.filterMap_flatMap l g _

/-- Extracting the ordinal indices from a guarded row of placements. -/
theorem targetNums_dite_list (l : List ℕ) (P : ℕ → Prop) [DecidablePred P]
    (fx fy fr : ℕ → ℚ) (fc : (j : ℕ) → P j → ℕ) (fn : ℕ → ℕ) (fb : Bool) :
    targetNums (l.filterMap fun j => if h : P j then
        some (Elem.target (fx j) (fy j) (fr j) (fc j h) (fn j) fb) else none) =
      l.filterMap fun j => if P j then some (fn j) else none := by
  unfold targetNums
  rw [List.filterMap_filterMap]
  apply List.filterMap_congr
  intro j _
  by_cases h : P j
  · rw [dif_pos h, if_pos h]
    rfl
  · rw [dif_neg h, if_neg h]
    rfl

/-- The ordinal code indices placed by the grid are exactly the in-range
members of `code_index + [0, rows*cols)`, in row-major order. -/
theorem targetNums_grid (codes : List ℕ) (d : ℚ) (idx rows cols : ℕ) :
    targetNums (create_sheet_grid codes d idx rows cols) =
      (List.range (rows * cols)).filterMap
        (fun k => if idx + k < codes.length then some (idx + k) else none) := by
  simp only [create_sheet_grid, targetNums_flatMap, targetNums_dite_list, Nat.add_assoc]
  exact flatMap_range_filterMap cols
    (fun k => if idx + k < codes.length then some (idx + k) else none) rows

/-- Row-major cell membership: cell `(i, j)` with an in-range index holds
the target for code `codes[code_index + i*cols + j]` at the spacing-derived
position. -/
theorem grid_cell_mem (codes : List ℕ) (d : ℚ) (idx rows cols : ℕ) (i j : ℕ)
    (hi : i < rows) (hj : j < cols) (h : idx + i * cols + j < codes.length) :
    Elem.target
        (10 + d * 3 / 2 + (j : ℚ) * ((page_width - 10 * 2 - d * 3) / ((cols : ℚ) - 1)))
        (10 + d * 3 / 2 + (i : ℚ) * ((page_height - 10 * 2 - d * 3) / ((rows : ℚ) - 1)))
        (d / 2) (codes.get ⟨idx + i * cols + j, h⟩) (idx + i * cols + j) true
      ∈ create_sheet_grid codes d idx rows cols := by
  simp only [create_sheet_grid]
  refine List.mem_flatMap.mpr ⟨i, List.mem_range.mpr hi, ?_⟩
  refine List.mem_filterMap.mpr ⟨j, List.mem_range.mpr hj, ?_⟩
  rw [dif_pos h]

/-- Every element the grid composer adds is a coded target invoked with
`first_segment=true` whose code is drawn from the code list. -/
theorem grid_all_targets (codes : List ℕ) (d : ℚ) (idx rows cols : ℕ) :
    ∀ e ∈ create_sheet_grid codes d idx rows cols,
      ∃ x y c num, e = Elem.target x y (d / 2) c num true ∧ c ∈ codes := by
  intro e he
  simp only [create_sheet_grid, List.mem_flatMap, List.mem_filterMap,
    List.mem_range] at he
  obtain ⟨i, _, j, _, hsome⟩ := he
  by_cases h : idx + i * cols + j < codes.length
  · rw [dif_pos h] at hsome
    injection hsome with hsome
    exact ⟨_, _, _, _, hsome.symm, List.get_mem codes _ _⟩
  · rw [dif_neg h] at hsome
    exact absurd hsome (Option.noConfusion)

theorem textLabels_append (l₁ l₂ : List Prim) :
    textLabels (l₁ ++ l₂) = textLabels l₁ ++ textLabels l₂ :=
  List.filterMap_append l₁ l₂ _

theorem textLabels_flatMap (elems : List Elem) :
    textLabels (elems.flatMap renderElem) = (targetNums elems).map (· + 1) := by
  induction elems with
  | nil => rfl
  | cons e es ih =>
    rw [List.flatMap_cons, textLabels_append, ih]
    cases e with
    | target x y r c num first =>
      rw [show renderElem (.target x y r c num first) =
        add_target x y r c num first "#000000" from rfl, textLabels_add_target]
      rfl
    | dot x y r => rfl

/-- The printed labels of a page are the placement ordinals plus one. -/
theorem textLabels_renderPage (elems : List Elem) :
    textLabels (renderPage elems) = (targetNums elems).map (· + 1) := by
  unfold renderPage
  have hrect : textLabels (Prim.rect 5 5 (page_width - 10) (page_height - 10) "#fff" ::
      elems.flatMap renderElem) = textLabels (elems.flatMap renderElem) := by
    unfold textLabels
    rw [List.filterMap_cons_none rfl]
  rw [hrect, textLabels_flatMap]

theorem targetNums_length_all (l : List Elem)
    (hall : ∀ e ∈ l, ∃ x y r c num b, e = Elem.target x y r c num b) :
    (targetNums l).length = l.length := by
  induction l with
  | nil => rfl
  | cons e es ih =>
    obtain ⟨x, y, r, c, num, b, rfl⟩ := hall _ (List.mem_cons_self _ es)
    have hcons : targetNums (Elem.target x y r c num b :: es) = num :: targetNums es := rfl
    rw [hcons, List.length_cons, List.length_cons,
      ih (fun e he => hall e (List.mem_cons_of_mem _ he))]

/-- Claim C7: the grid is filled row-major — cell `(i,j)` receives the code
at index `start_index + i*cols + j` when in range and stays empty
otherwise; with `rows=4, cols=2, start_index=0` over ≥ 16 codes the page
prints labels 1..8 in row-major order, and with `start_index=12` over
exactly 16 codes it places indices 12–15 (4 placements, 4 empty cells). -/
theorem claim_C7_grid_row_major (codes : List ℕ) (d : ℚ) (idx rows cols i j : ℕ)
    (hi : i < rows) (hj : j < cols) :
    (∀ h : idx + i * cols + j < codes.length,
      Elem.target
          (10 + d * 3 / 2 + (j : ℚ) * ((page_width - 10 * 2 - d * 3) / ((cols : ℚ) - 1)))
          (10 + d * 3 / 2 + (i : ℚ) * ((page_height - 10 * 2 - d * 3) / ((rows : ℚ) - 1)))
          (d / 2) (codes.get ⟨idx + i * cols + j, h⟩) (idx + i * cols + j) true
        ∈ create_sheet_grid codes d idx rows cols) ∧
    (codes.length ≤ idx + i * cols + j →
      idx + i * cols + j ∉ targetNums (create_sheet_grid codes d idx rows cols)) ∧
    (16 ≤ codes.length →
      textLabels (renderPage (create_sheet_grid codes d 0 4 2)) =
        [1, 2, 3, 4, 5, 6, 7, 8]) ∧
    (codes.length = 16 →
      targetNums (create_sheet_grid codes d 12 4 2) = [12, 13, 14, 15] ∧
      (create_sheet_grid codes d 12 4 2).length = 4) := by
  refine ⟨fun h => grid_cell_mem codes d idx rows cols i j hi hj h, ?_, ?_, ?_⟩
  · intro hge hmem
    rw [targetNums_grid] at hmem
    obtain ⟨k, _, hsome⟩ := List.mem_filterMap.mp hmem
    by_cases hlt : idx + k < codes.length
    · rw [if_pos hlt] at hsome
      injection hsome with he
      omega
    · rw [if_neg hlt] at hsome
      exact absurd hsome (Option.noConfusion)
  · intro h16
    rw [textLabels_renderPage, targetNums_grid]
    have hall : (List.range (4 * 2)).filterMap
        (fun k => if 0 + k < codes.length then some (0 + k) else none) =
        (List.range (4 * 2)).filterMap some := by
      apply List.filterMap_congr
      intro k hk
      rw [List.mem_range] at hk
      rw [if_pos (by omega)]
      rw [Nat.zero_add]
    rw [hall, List.filterMap_some]
    decide
  · intro h16
    have hnums : targetNums (create_sheet_grid codes d 12 4 2) = [12, 13, 14, 15] := by
      rw [targetNums_grid, h16]
      decide
    refine ⟨hnums, ?_⟩
    have hlen := targetNums_length_all (create_sheet_grid codes d 12 4 2) ?_
    · rw [← hlen, hnums]
      decide
    · intro e he
      obtain ⟨x, y, c, num, he', _⟩ := grid_all_targets codes d 12 4 2 e he
      exact ⟨x, y, d / 2, c, num, true, he'⟩

theorem claim_C7_witness :
    (0 < 4 ∧ 0 < 2 ∧ 16 ≤ (List.range 16).length ∧ (List.range 16).length = 16) ∧
    textLabels (renderPage (create_sheet_grid (List.range 16) 20 0 4 2)) =
      [1, 2, 3, 4, 5, 6, 7, 8] ∧
    targetNums (create_sheet_grid (List.range 16) 20 12 4 2) = [12, 13, 14, 15] :=
  ⟨⟨by decide, by decide, by decide, by decide⟩,
   (claim_C7_grid_row_major (List.range 16) 20 0 4 2 0 0 (by decide)
     (by decide)).2.2.1 (by decide),
   ((claim_C7_grid_row_major (List.range 16) 20 12 4 2 0 0 (by decide)
     (by decide)).2.2.2 (by decide)).1⟩

/-- Counterexample to claim C4: for `create_sheet_a`, `create_sheet_b`,
`create_sheet_c` an out-of-range code index is not silently omitted; the
unguarded `CODES[code_index]` lookup fails (Python `IndexError`, modelled
as `none`), so composition fails instead of producing the page. -/
theorem claim_C4_counterexample :
    create_sheet_a ([] : List ℕ) 20 0 = none ∧
    create_sheet_b ([] : List ℕ) 20 0 = none ∧
    create_sheet_c ([] : List ℕ) 20 0 = none :=
  ⟨rfl, rfl, rfl⟩

/-- Claim C4 (amended): only `create_sheet_grid` guards its code lookups —
out-of-range cells are silently omitted and all in-range placements are
produced; `create_sheet_a`/`b`/`c` instead fail (unguarded indexing)
exactly when the indices they read are out of range. -/
theorem claim_C4_amended (codes : List ℕ) (d : ℚ) (idx rows cols : ℕ) :
    targetNums (create_sheet_grid codes d idx rows cols) =
      (List.range (rows * cols)).filterMap
        (fun k => if idx + k < codes.length then some (idx + k) else none) ∧
    ((create_sheet_a codes d idx).isSome ↔ idx + 1 < codes.length) ∧
    ((create_sheet_b codes d idx).isSome ↔ idx < codes.length) ∧
    ((create_sheet_c codes d idx).isSome ↔ idx < codes.length) := by
  refine ⟨targetNums_grid codes d idx rows cols, ?_, ?_, ?_⟩
  · simp only [create_sheet_a]
    by_cases h : idx + 1 < codes.length
    · rw [List.getElem?_eq_getElem (show idx < codes.length by omega),
        List.getElem?_eq_getElem h]
      simp [h]
    · rw [List.getElem?_eq_none (show codes.length ≤ idx + 1 by omega)]
      cases hx : codes[idx]? <;> simp [h]
  · simp only [create_sheet_b]
    by_cases h : idx < codes.length
    · rw [List.getElem?_eq_getElem h]
      simp [h]
    · rw [List.getElem?_eq_none (by omega)]
      simp [h]
  · simp only [create_sheet_c]
    by_cases h : idx < codes.length
    · rw [List.getElem?_eq_getElem h]
      simp [h]
    · rw [List.getElem?_eq_none (by omega)]
      simp [h]

/-- Centre radius of an element. -/
def elemR : Elem → ℚ
  | .target _ _ r _ _ _ => r
  | .dot _ _ r => r

/-- Claim C6 evaluation: `create_sheet_grid` performs no input validation.
With `diameter = 0` it silently draws 8 degenerate radius-0 targets
instead of failing fast, and with `rows = 0` it silently produces an empty
page. -/
theorem claim_C6_no_validation :
    (create_sheet_grid (List.replicate 16 1) 0 0 4 2).length = 8 ∧
    (∀ e ∈ create_sheet_grid (List.replicate 16 1) 0 0 4 2, elemR e = 0) ∧
    create_sheet_grid (List.replicate 16 1) 20 0 0 2 = [] := by
  refine ⟨by decide, ?_, rfl⟩
  intro e he
  obtain ⟨x, y, c, num, rfl, _⟩ := grid_all_targets (List.replicate 16 1) 0 0 4 2 e he
  show (0 : ℚ) / 2 = 0
  norm_num

/-- The `first_segment` flags passed to the coded placements, in order. -/
def targetFirstFlags (l : List Elem) : List Bool :=
  l.filterMap fun e => match e with
    | .target _ _ _ _ _ first => some first
    | _ => none

/-- Claim C8: with two codes available, `create_sheet_a` places exactly two
coded targets, at the quarter and three-quarter diagonal points, the first
invoked with `first_segment=true` and the second with `false`, plus
exactly four uncoded reference dots — consuming exactly the two codes at
`code_index` and `code_index + 1`. -/
theorem claim_C8_paired_diagonal (codes : List ℕ) (d : ℚ) (idx : ℕ)
    (h : idx + 1 < codes.length) :
    ∃ l, create_sheet_a codes d idx = some l ∧
      targetNums l = [idx, idx + 1] ∧
      targetPositions l = [(page_width / 4, page_height / 4),
        (page_width / 4 * 3, page_height / 4 * 3)] ∧
      targetFirstFlags l = [true, false] ∧
      dotCount l = 4 ∧ l.length = 6 := by
  simp only [create_sheet_a]
  rw [List.getElem?_eq_getElem (show idx < codes.length by omega),
    List.getElem?_eq_getElem h]
  exact ⟨_, rfl, rfl, rfl, rfl, rfl, rfl⟩

theorem claim_C8_witness :
    0 + 1 < ([7, 11] : List ℕ).length ∧
    ∃ l, create_sheet_a [7, 11] 25 0 = some l ∧
      targetNums l = [0, 0 + 1] ∧
      targetPositions l = [(page_width / 4, page_height / 4),
        (page_width / 4 * 3, page_height / 4 * 3)] ∧
      targetFirstFlags l = [true, false] ∧
      dotCount l = 4 ∧ l.length = 6 :=
  ⟨by decide, claim_C8_paired_diagonal [7, 11] 25 0 (by decide)⟩

/-- Claim C5: `create_sheet_b` places a single coded target whose position
depends only on the parity of the code index — an even index puts it at
`(width/4·3, height/4·3)` (both quarter-point coordinates scaled by 3) and
an odd index at `(width/4, height/4)`. -/
theorem claim_C5_parity (codes : List ℕ) (d : ℚ) (idx : ℕ) (h : idx < codes.length) :
    ∃ l, create_sheet_b codes d idx = some l ∧
      targetPositions l =
        [if idx % 2 = 0 then (page_width / 4 * 3, page_height / 4 * 3)
         else (page_width / 4, page_height / 4)] ∧
      targetNums l = [idx] ∧ targetFirstFlags l = [true] := by
  simp only [create_sheet_b]
  rw [List.getElem?_eq_getElem h]
  refine ⟨_, rfl, ?_, rfl, rfl⟩
  by_cases hpar : idx % 2 = 0 <;> simp [hpar, targetPositions]

theorem claim_C5_witness :
    (18 < (List.replicate 20 1 : List ℕ).length ∧
      ∃ l, create_sheet_b (List.replicate 20 1) 25 18 = some l ∧
        targetPositions l = [(page_width / 4 * 3, page_height / 4 * 3)] ∧
        targetNums l = [18]) ∧
    (19 < (List.replicate 20 1 : List ℕ).length ∧
      ∃ l, create_sheet_b (List.replicate 20 1) 25 19 = some l ∧
        targetPositions l = [(page_width / 4, page_height / 4)] ∧
        targetNums l = [19]) := by
  constructor
  · refine ⟨by decide, ?_⟩
    obtain ⟨l, h1, h2, h3, _⟩ := claim_C5_parity (List.replicate 20 1) 25 18 (by decide)
    refine ⟨l, h1, ?_, h3⟩
    rw [h2, if_pos (by decide)]
  · refine ⟨by decide, ?_⟩
    obtain ⟨l, h1, h2, h3, _⟩ := claim_C5_parity (List.replicate 20 1) 25 19 (by decide)
    refine ⟨l, h1, ?_, h3⟩
    rw [h2, if_neg (by decide)]

theorem anchors_all_first (l : List Elem)
    (hall : ∀ e ∈ l, ∃ x y r c num, e = Elem.target x y r c num true ∧ c < 2 ^ BITS) :
    (l.map anchorsOfElem).sum = (targetCodes l).countP (fun c => c != 0) := by
  induction l with
  | nil => rfl
  | cons e es ih =>
    obtain ⟨x, y, r, c, num, rfl, hc⟩ := hall _ (List.mem_cons_self _ es)
    have hcons : targetCodes (Elem.target x y r c num true :: es) = c :: targetCodes es :=
      rfl
    rw [List.map_cons, List.sum_cons, anchorsOfElem_target_true x y r c num hc, hcons,
      List.countP_cons, ih (fun e he => hall e (List.mem_cons_of_mem _ he))]
    by_cases hc0 : c = 0
    · simp [hc0]
    · simp only [hc0, if_false, bne_iff_ne, ne_eq, not_false_eq_true, if_true]
      omega

/-- Counterexample to claim C3: `create_sheet_grid` passes
`first_segment=True` for every cell (source line 123), so a grid page of 8
placements with nonzero codes invokes 8 placements with the flag and emits
8 anchor-tagged arc segments — not exactly one. -/
theorem claim_C3_counterexample :
    firstFlagCount (create_sheet_grid (List.replicate 16 1) 20 0 4 2) = 8 ∧
    pageAnchors (renderPage (create_sheet_grid (List.replicate 16 1) 20 0 4 2)) = 8 ∧
    ¬ pageAnchors (renderPage (create_sheet_grid (List.replicate 16 1) 20 0 4 2)) = 1 ∧
    ¬ firstFlagCount (create_sheet_grid (List.replicate 16 1) 20 0 4 2) ≤ 1 :=
  ⟨by decide, by decide, by decide, by decide⟩

/-- Claim C3 (amended): `create_sheet_a`, `create_sheet_b` and
`create_sheet_c` invoke exactly one placement per page with
`first_segment=true` and their page carries exactly one anchor tag when
that placement's code is nonzero; `create_sheet_grid`, however, invokes
every placed cell with `first_segment=true`, so a grid page carries one
anchor per placed nonzero code rather than one per page. -/
theorem claim_C3_amended (codes : List ℕ) (d : ℚ) (idx rows cols : ℕ)
    (hall : ∀ c ∈ codes, c < 2 ^ BITS) :
    (firstFlagCount (create_sheet_grid codes d idx rows cols) =
        (create_sheet_grid codes d idx rows cols).length ∧
      pageAnchors (renderPage (create_sheet_grid codes d idx rows cols)) =
        (targetCodes (create_sheet_grid codes d idx rows cols)).countP (fun c => c != 0)) ∧
    (∀ h : idx + 1 < codes.length, ∃ l, create_sheet_a codes d idx = some l ∧
      targetFirstFlags l = [true, false] ∧
      (codes.get ⟨idx, by omega⟩ ≠ 0 → pageAnchors (renderPage l) = 1)) ∧
    (∀ h : idx < codes.length, ∃ l, create_sheet_b codes d idx = some l ∧
      targetFirstFlags l = [true] ∧
      (codes.get ⟨idx, h⟩ ≠ 0 → pageAnchors (renderPage l) = 1)) ∧
    (∀ h : idx < codes.length, ∃ l, create_sheet_c codes d idx = some l ∧
      targetFirstFlags l = [true] ∧
      (codes.get ⟨idx, h⟩ ≠ 0 → pageAnchors (renderPage l) = 1)) := by
  have hgridall : ∀ e ∈ create_sheet_grid codes d idx rows cols,
      ∃ x y r c num, e = Elem.target x y r c num true ∧ c < 2 ^ BITS := by
    intro e he
    obtain ⟨x, y, c, num, he', hcmem⟩ := grid_all_targets codes d idx rows cols e he
    exact ⟨x, y, d / 2, c, num, he', hall c hcmem⟩
  refine ⟨⟨?_, ?_⟩, ?_, ?_, ?_⟩
  · apply List.countP_eq_length.mpr
    intro e he
    obtain ⟨x, y, r, c, num, rfl, _⟩ := hgridall e he
    rfl
  · rw [pageAnchors_renderPage]
    exact anchors_all_first _ hgridall
  · intro h
    simp only [create_sheet_a]
    rw [List.getElem?_eq_getElem (show idx < codes.length by omega),
      List.getElem?_eq_getElem h]
    refine ⟨_, rfl, rfl, ?_⟩
    intro hne
    rw [pageAnchors_renderPage]
    simp only [List.map_cons, List.map_nil, List.sum_cons, List.sum_nil, anchorsOfElem_dot]
    have hc1 : codes[idx] < 2 ^ BITS := hall _ (List.getElem_mem (by omega))
    have hne' : ¬ (codes[idx] = 0) := hne
    rw [anchorsOfElem_target_true _ _ _ _ _ hc1, anchorsOfElem_target_false, if_neg hne']
    omega
  · intro h
    simp only [create_sheet_b]
    rw [List.getElem?_eq_getElem h]
    refine ⟨_, rfl, rfl, ?_⟩
    intro hne
    rw [pageAnchors_renderPage]
    simp only [List.map_cons, List.map_nil, List.sum_cons, List.sum_nil, anchorsOfElem_dot]
    have hc1 : codes[idx] < 2 ^ BITS := hall _ (List.getElem_mem h)
    have hne' : ¬ (codes[idx] = 0) := hne
    rw [anchorsOfElem_target_true _ _ _ _ _ hc1, if_neg hne']
    omega
  · intro h
    simp only [create_sheet_c]
    rw [List.getElem?_eq_getElem h]
    refine ⟨_, rfl, rfl, ?_⟩
    intro hne
    rw [pageAnchors_renderPage]
    simp only [List.map_cons, List.map_nil, List.sum_cons, List.sum_nil, anchorsOfElem_dot]
    have hc1 : codes[idx] < 2 ^ BITS := hall _ (List.getElem_mem h)
    have hne' : ¬ (codes[idx] = 0) := hne
    rw [anchorsOfElem_target_true _ _ _ _ _ hc1, if_neg hne']
    omega

theorem claim_C3_witness :
    (∀ c ∈ ([3, 5] : List ℕ), c < 2 ^ BITS) ∧
    (∃ l, create_sheet_a [3, 5] 25 0 = some l ∧
      targetFirstFlags l = [true, false] ∧
      (([3, 5] : List ℕ).get ⟨0, by decide⟩ ≠ 0 → pageAnchors (renderPage l) = 1)) :=
  ⟨by decide, (claim_C3_amended [3, 5] 25 0 4 2 (by decide)).2.1 (by decide)⟩

/-- Counterexample to claim C9: with `diameter = 20`, `rows = 2`,
`cols = 8` (a valid `rows ≥ 2, cols ≥ 2` grid over 16 codes) the computed
x-spacing is `(210 - 20 - 60)/7 = 130/7 < 20`, so the adjacent targets of
cells `(0,0)` and `(0,1)` are closer than one diameter in both axes. -/
theorem claim_C9_counterexample :
    ∃ e1 ∈ create_sheet_grid (List.replicate 16 1) 20 0 2 8,
      ∃ e2 ∈ create_sheet_grid (List.replicate 16 1) 20 0 2 8,
        e1 ≠ e2 ∧ |elemX e1 - elemX e2| < 20 ∧ |elemY e1 - elemY e2| < 20 := by
  refine ⟨_, grid_cell_mem (List.replicate 16 1) 20 0 2 8 0 0 (by omega) (by omega)
      (by decide), _,
    grid_cell_mem (List.replicate 16 1) 20 0 2 8 0 1 (by omega) (by omega)
      (by decide), ?_, ?_, ?_⟩
  · intro hcontra
    have := congrArg (fun e => match e with
      | Elem.target _ _ _ _ num _ => num
      | Elem.dot _ _ _ => 0) hcontra
    simp at this
  · show |(10 + 20 * 3 / 2 + ((0 : ℕ) : ℚ) * ((page_width - 10 * 2 - 20 * 3) /
        (((8 : ℕ) : ℚ) - 1))) -
      (10 + 20 * 3 / 2 + ((1 : ℕ) : ℚ) * ((page_width - 10 * 2 - 20 * 3) /
        (((8 : ℕ) : ℚ) - 1)))| < 20
    rw [page_width]
    norm_num
    rw [abs_of_nonneg (by norm_num : (0 : ℚ) ≤ 130 / 7)]
    norm_num
  · show |(10 + 20 * 3 / 2 + ((0 : ℕ) : ℚ) * ((page_height - 10 * 2 - 20 * 3) /
        (((2 : ℕ) : ℚ) - 1))) -
      (10 + 20 * 3 / 2 + ((0 : ℕ) : ℚ) * ((page_height - 10 * 2 - 20 * 3) /
        (((2 : ℕ) : ℚ) - 1)))| < 20
    norm_num

/-- Claim C9 (amended): the spacing computation keeps any two grid target
centres at least `diameter` apart (in some axis) provided the spacing it
derives is itself at least `diameter`, i.e. when
`diameter * (cols + 2) ≤ 190` and `diameter * (rows + 2) ≤ 278`; without
that proviso the claim fails (see the counterexample). -/
theorem claim_C9_amended (codes : List ℕ) (d : ℚ) (idx rows cols : ℕ)
    (hrows : 2 ≤ rows) (hcols : 2 ≤ cols) (hd : 0 < d)
    (hx : d * ((cols : ℚ) + 2) ≤ 190) (hy : d * ((rows : ℚ) + 2) ≤ 278) :
    (create_sheet_grid codes d idx rows cols).Pairwise
      (fun e1 e2 => d ≤ |elemX e1 - elemX e2| ∨ d ≤ |elemY e1 - elemY e2|) := by
  have hcolsQ : (2 : ℚ) ≤ (cols : ℚ) := by exact_mod_cast hcols
  have hrowsQ : (2 : ℚ) ≤ (rows : ℚ) := by exact_mod_cast hrows
  have hxs : d ≤ (page_width - 10 * 2 - d * 3) / ((cols : ℚ) - 1) := by
    rw [page_width, le_div_iff₀ (by linarith)]
    have hexp : d * ((cols : ℚ) - 1) = d * (cols : ℚ) - d := by ring
    have hexp2 : d * ((cols : ℚ) + 2) = d * (cols : ℚ) + 2 * d := by ring
    linarith
  have hys : d ≤ (page_height - 10 * 2 - d * 3) / ((rows : ℚ) - 1) := by
    rw [page_height, le_div_iff₀ (by linarith)]
    have hexp : d * ((rows : ℚ) - 1) = d * (rows : ℚ) - d := by ring
    have hexp2 : d * ((rows : ℚ) + 2) = d * (rows : ℚ) + 2 * d := by ring
    linarith
  simp only [create_sheet_grid]
  rw [List.pairwise_flatMap]
  constructor
  · intro i _
    rw [List.pairwise_filterMap]
    refine (List.pairwise_lt_range cols).imp ?_
    intro j1 j2 hj e1 he1 e2 he2
    by_cases hin1 : idx + i * cols + j1 < codes.length
    · by_cases hin2 : idx + i * cols + j2 < codes.length
      · rw [dif_pos hin1, Option.mem_def] at he1
        rw [dif_pos hin2, Option.mem_def] at he2
        injection he1 with he1
        injection he2 with he2
        subst he1
        subst he2
        left
        show d ≤ |(10 + d * 3 / 2 + (j1 : ℚ) * ((page_width - 10 * 2 - d * 3) /
            ((cols : ℚ) - 1))) - (10 + d * 3 / 2 + (j2 : ℚ) *
            ((page_width - 10 * 2 - d * 3) / ((cols : ℚ) - 1)))|
        have hj12 : (j1 : ℚ) + 1 ≤ (j2 : ℚ) := by exact_mod_cast hj
        have hdiff : (10 + d * 3 / 2 + (j1 : ℚ) * ((page_width - 10 * 2 - d * 3) /
            ((cols : ℚ) - 1))) - (10 + d * 3 / 2 + (j2 : ℚ) *
            ((page_width - 10 * 2 - d * 3) / ((cols : ℚ) - 1))) =
            -(((j2 : ℚ) - (j1 : ℚ)) * ((page_width - 10 * 2 - d * 3) /
              ((cols : ℚ) - 1))) := by ring
        rw [hdiff, abs_neg, abs_of_nonneg (by nlinarith)]
        nlinarith
      · rw [dif_neg hin2] at he2
        simp at he2
    · rw [dif_neg hin1] at he1
      simp at he1
  · refine (List.pairwise_lt_range rows).imp ?_
    intro i1 i2 hi e1 he1 e2 he2
    obtain ⟨j1, _, hs1⟩ := List.mem_filterMap.mp he1
    obtain ⟨j2, _, hs2⟩ := List.mem_filterMap.mp he2
    by_cases hin1 : idx + i1 * cols + j1 < codes.length
    · by_cases hin2 : idx + i2 * cols + j2 < codes.length
      · rw [dif_pos hin1] at hs1
        rw [dif_pos hin2] at hs2
        injection hs1 with hs1
        injection hs2 with hs2
        subst hs1
        subst hs2
        right
        show d ≤ |(10 + d * 3 / 2 + (i1 : ℚ) * ((page_height - 10 * 2 - d * 3) /
            ((rows : ℚ) - 1))) - (10 + d * 3 / 2 + (i2 : ℚ) *
            ((page_height - 10 * 2 - d * 3) / ((rows : ℚ) - 1)))|
        have hi12 : (i1 : ℚ) + 1 ≤ (i2 : ℚ) := by exact_mod_cast hi
        have hdiff : (10 + d * 3 / 2 + (i1 : ℚ) * ((page_height - 10 * 2 - d * 3) /
            ((rows : ℚ) - 1))) - (10 + d * 3 / 2 + (i2 : ℚ) *
            ((page_height - 10 * 2 - d * 3) / ((rows : ℚ) - 1))) =
            -(((i2 : ℚ) - (i1 : ℚ)) * ((page_height - 10 * 2 - d * 3) /
              ((rows : ℚ) - 1))) := by ring
        rw [hdiff, abs_neg, abs_of_nonneg (by nlinarith)]
        nlinarith
      · rw [dif_neg hin2] at hs2
        exact absurd hs2 (Option.noConfusion)
    · rw [dif_neg hin1] at hs1
      exact absurd hs1 (Option.noConfusion)

theorem claim_C9_witness :
    (2 ≤ 2 ∧ 2 ≤ 2 ∧ (0 : ℚ) < 40 ∧ (40 : ℚ) * ((2 : ℕ) + 2) ≤ 190 ∧
      (40 : ℚ) * ((2 : ℕ) + 2) ≤ 278) ∧
    (create_sheet_grid (List.range 16) 40 0 2 2).Pairwise
      (fun e1 e2 => 40 ≤ |elemX e1 - elemX e2| ∨ 40 ≤ |elemY e1 - elemY e2|) :=
  ⟨⟨by omega, by omega, by norm_num, by norm_num, by norm_num⟩,
   claim_C9_amended (List.range 16) 40 0 2 2 (by omega) (by omega) (by norm_num)
     (by norm_num) (by norm_num)⟩

end Target14
